import Mathlib

/-!
# dev-html-proxy: response rewriting, retrying transport, broadcast hub, startup checks

A shallow embedding of `main.go` and `retry_roundtripper.go`, with the
properties of the rewriting proxy, the retrying round tripper, the websocket
client registry and the start-up validation.

Go strings are byte sequences; bytes are natural numbers below 256.  Library
routines the program calls (`strings.Replace`, `strings.HasPrefix`,
`sync.Mutex`, slice `append`) are modelled after their Go definitions.
-/

namespace DevHtmlProxy

/-! ## Go strings -/

/-- A byte of a Go string, held as a natural number (values 0..255). -/
abbrev Byte := Nat

/-- A Go `string`: an immutable sequence of bytes. -/
abbrev GoString := List Byte

/-- The bytes of an ASCII literal. -/
def str (s : String) : GoString := s.toList.map Char.toNat

/-- A Go `error` value, carrying its message. -/
structure GoError where
  msg : GoString
deriving DecidableEq, Repr

/-- Go slice expression `s[a:b]` on a string; `none` is the run-time panic
raised when `0 <= a <= b <= len(s)` does not hold. -/
def slice (s : GoString) (a b : Nat) : Option GoString :=
  if a ≤ b ∧ b ≤ s.length then some ((s.take b).drop a) else none

/-- Go slice expression `s[a:]`. -/
def sliceFrom (s : GoString) (a : Nat) : Option GoString :=
  slice s a s.length

/-- `strings.HasPrefix`: `len(s) >= len(prefix) && s[:len(prefix)] == prefix`. -/
def HasPrefix (s pre : GoString) : Bool :=
  decide (pre.length ≤ s.length) && (s.take pre.length == pre)

/-- `strings.Index`: the offset of the first instance of `substr` in `s`;
`none` stands for Go's result `-1` (no instance). -/
def Index : GoString → GoString → Option Nat
  | [], substr => if substr = [] then some 0 else none
  | c :: s, substr =>
    if HasPrefix (c :: s) substr then some 0
    else (Index s substr).map (· + 1)

/-- The loop of `strings.Count` for a non-empty `substr`:
`for { i := Index(s, substr); if i == -1 { return n }; n++; s = s[i+len(substr):] }`.
Every round drops at least one byte of `s`, so `len(s) + 1` rounds of fuel are
never used up. -/
def CountLoop (substr : GoString) : Nat → GoString → Nat → Nat
  | 0, _, n => n
  | fuel + 1, s, n =>
    match Index s substr with
    | none => n
    | some i => CountLoop substr fuel (s.drop (i + substr.length)) (n + 1)

/-- `strings.Count` for a non-empty `substr`: the number of non-overlapping
instances.  (For an empty `substr` Go counts UTF-8 sequences; the program never
passes one, and the argument `_h` keeps that case out of the model.) -/
def Count (s substr : GoString) (_h : substr ≠ []) : Nat :=
  CountLoop substr (s.length + 1) s 0

/-- The replacement loop of `strings.Replace` for a non-empty `old`:
`for i := 0; i < n; i++ { j := start + Index(s[start:], old);
  b.WriteString(s[start:j]); b.WriteString(new); start = j + len(old) }`
followed by `b.WriteString(s[start:])`.  The first argument counts the rounds
left.  `none` is a slice-bounds panic (`Index` answering `-1` makes
`s[start:j]` one). -/
def ReplaceLoop (s old new : GoString) : Nat → Nat → GoString → Option GoString
  | 0, start, b => do
    let rest ← sliceFrom s start
    pure (b ++ rest)
  | k + 1, start, b => do
    let rest ← sliceFrom s start
    let d ← Index rest old
    let j := start + d
    let seg ← slice s start j
    ReplaceLoop s old new k (j + old.length) (b ++ seg ++ new)

/-- `strings.Replace(s, old, new, n)` for a non-empty `old`: a copy of `s` with
the first `n` non-overlapping instances of `old` replaced by `new` (all of them
when `n < 0`). -/
def Replace (s old new : GoString) (n : Int) (h : old ≠ []) : Option GoString :=
  if old = new ∨ n = 0 then some s
  else
    let m := Count s old h
    if m = 0 then some s
    else
      let n := if n < 0 ∨ (m : Int) < n then (m : Int) else n
      ReplaceLoop s old new n.toNat 0 []

/-- Decimal digits of `n`, most significant first: what `fmt.Sprint` prints for
a non-negative `int`. -/
def Sprint (n : Nat) : GoString :=
  if n < 10 then [48 + n] else Sprint (n / 10) ++ [48 + n % 10]
decreasing_by omega

/-- The number a string of decimal digits denotes. -/
def decimalValue (s : GoString) : Nat :=
  s.foldl (fun acc c => 10 * acc + (c - 48)) 0

/-! ## The response rewriter (`proxy.ModifyResponse` in `startProxyServer`) -/

/-- The script block injected into pages (`const jsCode`). -/
def jsCode : GoString := str (
  "\n" ++
  "<script>\n" ++
  "    function connectWebSocket() \x7b\n" ++
  "        // Create a WebSocket connection\n" ++
  "        var ws = new WebSocket('ws://' + window.location.host + '/dev-html-proxy-ws');\n" ++
  "\n" ++
  "        // Message received on the WebSocket\n" ++
  "        ws.onmessage = function(event) \x7b\n" ++
  "            if (event.data === \"refresh\") \x7b\n" ++
  "                window.location.reload();\n" ++
  "            \x7d\n" ++
  "        \x7d;\n" ++
  "\n" ++
  "        // WebSocket closed unexpectedly\n" ++
  "        ws.onclose = function() \x7b\n" ++
  "            // Try to reconnect in 5 seconds\n" ++
  "            console.log(\"WebSocket connection closed. Attempting to reconnect...\");\n" ++
  "            setTimeout(function() \x7b\n" ++
  "                connectWebSocket();\n" ++
  "            \x7d, 5000);\n" ++
  "        \x7d;\n" ++
  "\n" ++
  "        // Optional: Handle WebSocket errors\n" ++
  "        ws.onerror = function(err) \x7b\n" ++
  "            console.error(\"WebSocket encountered an error:\", err);\n" ++
  "            ws.close();\n" ++
  "        \x7d;\n" ++
  "    \x7d\n" ++
  "\n" ++
  "    // Initial connection attempt\n" ++
  "    connectWebSocket();\n" ++
  "</script>\n")

/-- The literal the rewriter looks for. -/
def closeTag : GoString := str "</body>"

/-- An `io.ReadCloser` as seen by `io.ReadAll`: the bytes it delivers and the
error, if any, that ends the read. -/
structure ReadCloser where
  data : GoString
  err : Option GoError

/-- `io.NopCloser(bytes.NewBufferString(s))`. -/
def NopCloserOfString (s : GoString) : ReadCloser := ⟨s, none⟩

/-- `http.Header`: a map from canonical header names to their values. -/
abbrev Header := GoString → Option (List GoString)

/-- `Header.Set` for a key already in canonical form: the entry becomes the
single value `value`, whatever was there. -/
def Header.Set (h : Header) (key value : GoString) : Header :=
  fun k => if k = key then some [value] else h k

/-- The fields of `http.Response` the proxy reads or writes. -/
structure Response where
  StatusCode : Int
  Header : Header
  Body : ReadCloser
  ContentLength : Int

/-- What a call leaves behind: a value, a returned `error`, or a panic. -/
inductive Outcome (α : Type) where
  | ok (a : α)
  | error (e : GoError)
  | panic

/-- The function assigned to `proxy.ModifyResponse`.  It returns the response
as mutated in place, or the read error.  (The deferred `Close` acts on the old
body, which has been read to its end, and leaves the response as it is.) -/
def ModifyResponse (res : Response) : Outcome Response :=
  match res.Body.err with
  | some err => .error err
  | none =>
    let bodyStr := res.Body.data
    match Replace bodyStr closeTag (jsCode ++ closeTag) 1 (by decide) with
    | none => .panic
    | some modifiedBody =>
      .ok { res with
        Body := NopCloserOfString modifiedBody
        ContentLength := (modifiedBody.length : Int)
        Header := res.Header.Set (str "Content-Length") (Sprint modifiedBody.length) }

/-! ## The retrying transport (`retry_roundtripper.go`) -/

/-- `MaxRetries`, the maximum number of attempts ("1 minute"). -/
def MaxRetries : Nat := 1 * 60 * 1000 / 100

/-- The parts of `http.Request` that identify an outbound request. -/
structure Request where
  Method : GoString
  URL : GoString

/-- An `http.RoundTripper`, given by what its `k`-th call (counting from 0)
returns for a request: the pair `(resp, err)`. -/
structure RoundTripper where
  RoundTrip : Nat → Request → Option Response × Option GoError

/-- What a `RoundTrip` of the retrying transport does to the outside. -/
inductive Event where
  | call (k : Nat)
  | sleep (milliseconds : Nat)
deriving DecidableEq, Repr

/-- The surroundings of the retrying transport: how many calls the underlying
transport has received, and the events so far in order. -/
structure World where
  calls : Nat
  trace : List Event
deriving DecidableEq, Repr

/-- A fresh world. -/
def World.start : World := ⟨0, []⟩

/-- The type `retryRoundTripper`. -/
structure retryRoundTripper where
  underlyingTransport : RoundTripper

/-- The loop `for i := 0; i < MaxRetries; i++ { ... }` of `RoundTrip`, followed
by the final `return nil, fmt.Errorf("max retries exceeded")`.  The first
argument is the number of rounds left, `MaxRetries - i`. -/
def retryRoundTripper.RoundTripLoop (rt : retryRoundTripper) (req : Request) :
    Nat → World → (Option Response × Option GoError) × World
  | 0, w => ((none, some ⟨str "max retries exceeded"⟩), w)
  | remaining + 1, w =>
    let r := rt.underlyingTransport.RoundTrip w.calls req
    let w1 : World := ⟨w.calls + 1, w.trace ++ [Event.call w.calls]⟩
    match r.2 with
    | some _ =>
      retryRoundTripper.RoundTripLoop rt req remaining ⟨w1.calls, w1.trace ++ [Event.sleep 100]⟩
    | none => ((r.1, r.2), w1)

/-- The method `(*retryRoundTripper).RoundTrip`. -/
def retryRoundTripper.RoundTrip (rt : retryRoundTripper) (req : Request) (w : World) :
    (Option Response × Option GoError) × World :=
  rt.RoundTripLoop req MaxRetries w

/-- Number of calls to the underlying transport recorded in a trace. -/
def countCalls (tr : List Event) : Nat :=
  (tr.filter fun e => match e with | Event.call _ => true | Event.sleep _ => false).length

/-- The sleeps recorded in a trace, in order. -/
def sleepsOf (tr : List Event) : List Nat :=
  tr.filterMap fun e => match e with | Event.call _ => none | Event.sleep ms => some ms

/-- The trace of `n` failed attempts starting with call number `k`: each call
is followed by one 100 ms sleep. -/
def failedRounds : Nat → Nat → List Event
  | _, 0 => []
  | k, n + 1 => Event.call k :: Event.sleep 100 :: failedRounds (k + 1) n

/-! ## The client registry (`clients`, `clientsMu`, `removeClient`, `broadcastMessage`) -/

/-- A `*websocket.Conn`, identified by its address. -/
abbrev Conn := Nat

/-- The state the hub works on.  `arr` is the backing array of the slice
`clients` and `len` its length, so that the registry is `arr[0:len]`;
`clientsMu` is `true` while the mutex is held; `closed` lists the connections
`Close` was called on; `delivered` lists the successful `WriteMessage` calls in
order. -/
structure Hub where
  arr : List Conn
  len : Nat
  clientsMu : Bool
  closed : List Conn
  delivered : List (Conn × GoString)
deriving DecidableEq, Repr

/-- The registry: the contents of the slice `clients`. -/
def Hub.clients (s : Hub) : List Conn := s.arr.take s.len

/-- A hub holding the given registry, mutex free, nothing sent or closed. -/
def Hub.ofList (reg : List Conn) : Hub := ⟨reg, reg.length, false, [], []⟩

/-- How a call on the hub ends: it returns; or its goroutine waits for ever in
`Lock`; or the program crashes (an index out of range, an `Unlock` of a mutex
that is not locked). -/
inductive Run where
  | returned (s : Hub)
  | blocked (s : Hub)
  | crashed (s : Hub)
deriving DecidableEq, Repr

/-- Sequencing: the rest of the code runs only when the first part returned. -/
def Run.andThen (r : Run) (f : Hub → Run) : Run :=
  match r with
  | Run.returned s => f s
  | Run.blocked s => Run.blocked s
  | Run.crashed s => Run.crashed s

/-- `clientsMu.Lock()`.  `sync.Mutex` is not re-entrant: `Lock` on a held mutex
waits until some other goroutine unlocks it.  Every `Unlock` of the program is
executed by the goroutine that holds the mutex, so when the caller itself
is the holder the wait never ends. -/
def Lock (s : Hub) : Run :=
  if s.clientsMu then Run.blocked s else Run.returned { s with clientsMu := true }

/-- `clientsMu.Unlock()`; on a mutex that is not locked it is a fatal error. -/
def Unlock (s : Hub) : Run :=
  if s.clientsMu then Run.returned { s with clientsMu := false } else Run.crashed s

/-- The array after `append(clients[:i], clients[i+1:]...)` for `i < len`:
the result fits the capacity, so the elements `i+1 .. len-1` are moved one
place down inside the same backing array and the slot `len-1` keeps its old
content. -/
def compact (arr : List Conn) (i len : Nat) : List Conn :=
  arr.take i ++ (arr.take len).drop (i + 1) ++ arr.drop (len - 1)

/-- The loop `for i, client := range clients { if client == ws { ...; break } }`
of `removeClient`.  The first argument is the number of rounds left (the range
length was fixed when the loop started), the second the index `i`. -/
def removeClientScan (ws : Conn) : Nat → Nat → Hub → Run
  | 0, _, s => Run.returned s
  | remaining + 1, i, s =>
    match s.arr[i]? with
    | none => Run.crashed s
    | some client =>
      if client = ws then
        Run.returned { s with arr := compact s.arr i s.len, len := s.len - 1 }
      else removeClientScan ws remaining (i + 1) s

/-- The function `removeClient`. -/
def removeClient (ws : Conn) (s : Hub) : Run :=
  (Lock s).andThen fun s1 =>
  (removeClientScan ws s1.len 0 s1).andThen fun s2 =>
  Unlock s2

/-- Whether `client.WriteMessage` returns an error: the connection is one of
those whose writes fail, or it has been closed. -/
def writeFails (fails : Conn → Bool) (s : Hub) (client : Conn) : Bool :=
  fails client || decide (client ∈ s.closed)

/-- The loop `for _, client := range clients { ... }` of `broadcastMessage`.
The range expression is evaluated once: the number of rounds is the length the
slice had when the loop started, and round `i` reads element `i` of the backing
array as it is then. -/
def broadcastLoop (fails : Conn → Bool) (message : GoString) : Nat → Nat → Hub → Run
  | 0, _, s => Run.returned s
  | remaining + 1, i, s =>
    match s.arr[i]? with
    | none => Run.crashed s
    | some client =>
      if writeFails fails s client then
        let s1 := { s with closed := s.closed ++ [client] }
        (removeClient client s1).andThen fun s2 =>
        broadcastLoop fails message remaining (i + 1) s2
      else
        broadcastLoop fails message remaining (i + 1)
          { s with delivered := s.delivered ++ [(client, message)] }

/-- The function `broadcastMessage`; `fails` tells which connections' writes
fail. -/
def broadcastMessage (fails : Conn → Bool) (message : GoString) (s : Hub) : Run :=
  (Lock s).andThen fun s1 =>
  (broadcastLoop fails message s1.len 0 s1).andThen fun s2 =>
  Unlock s2

/-- The connections that received `message`, in order of delivery. -/
def receivers (s : Hub) (message : GoString) : List Conn :=
  (s.delivered.filter fun d => d.2 = message).map Prod.fst

/-! ## Start-up (`main`) -/

/-- The command-line flags after `flag.Parse()`. -/
structure Flags where
  targetHost : GoString
  httpPort : GoString
  triggerPort : GoString
  showHelp : Bool
deriving DecidableEq, Repr

/-- How `main` goes on: `os.Exit(code)` before any server is started, or both
`go startProxyServer(targetHost, httpPort)` and
`go startTriggerServer(triggerPort)` are executed. -/
inductive Startup where
  | exit (code : Int)
  | serving (targetHost httpPort triggerPort : GoString)
deriving DecidableEq, Repr

/-- The function `main`, from the parsed flags on. -/
def main (f : Flags) : Startup :=
  if f.showHelp then Startup.exit 0
  else if f.targetHost = [] then Startup.exit 1
  else
    let targetHost :=
      if !HasPrefix f.targetHost (str "http://") && !HasPrefix f.targetHost (str "https://")
      then str "http://" ++ f.targetHost
      else f.targetHost
    if targetHost = str "http://localhost:" ++ f.httpPort then Startup.exit 1
    else Startup.serving targetHost f.httpPort f.triggerPort

/-! ## Concrete inputs -/

/-- A 200 response with the given body, read without error, whose headers
carry the length of that body. -/
def pageResponse (body : GoString) : Response :=
  { StatusCode := 200
    Header := fun k => if k = str "Content-Length" then some [Sprint body.length] else none
    Body := ⟨body, none⟩
    ContentLength := (body.length : Int) }

/-- A 503 answer of the origin. -/
def unavailableResponse : Response :=
  { StatusCode := 503
    Header := fun _ => none
    Body := ⟨str "Service Unavailable", none⟩
    ContentLength := 19 }

/-- A `GET /` for the origin. -/
def getRoot : Request := ⟨str "GET", str "http://localhost:9000/"⟩

/-- A transport whose first two calls fail and whose later calls answer 503. -/
def restartingTransport : RoundTripper :=
  ⟨fun k _ =>
    if k < 2 then (none, some ⟨str "connection refused"⟩) else (some unavailableResponse, none)⟩

/-- A transport whose every call fails. -/
def deadTransport : RoundTripper :=
  ⟨fun _ _ => (none, some ⟨str "connection refused"⟩)⟩

/-! ## Facts about the string routines -/

theorem HasPrefix_iff (s pre : GoString) : HasPrefix s pre = true ↔ pre <+: s := by
  simp only [HasPrefix, Bool.and_eq_true, decide_eq_true_eq, beq_iff_eq]
  constructor
  · rintro ⟨_, he⟩
    exact List.prefix_iff_eq_take.mpr he.symm
  · intro h
    exact ⟨h.length_le, (List.prefix_iff_eq_take.mp h).symm⟩

theorem Index_eq_none (s substr : GoString) (h : Index s substr = none) :
    ¬ substr <:+: s := by
  induction s with
  | nil =>
    rintro ⟨p, t, hpt⟩
    have hs : substr = [] := by
      cases p <;> cases substr <;> simp_all
    simp [Index, hs] at h
  | cons c s ih =>
    unfold Index at h
    split at h
    · simp at h
    · rename_i hp
      have hn : Index s substr = none := by simpa using h
      rintro ⟨p, t, hpt⟩
      cases p with
      | nil =>
        apply hp
        rw [HasPrefix_iff]
        exact ⟨t, by simpa using hpt⟩
      | cons a p =>
        simp only [List.cons_append, List.cons.injEq] at hpt
        exact ih hn ⟨p, t, hpt.2⟩

theorem Index_eq_some (s substr : GoString) (k : Nat) (h : Index s substr = some k) :
    s = s.take k ++ substr ++ s.drop (k + substr.length) ∧
      k + substr.length ≤ s.length ∧
      ∀ p t, s = p ++ substr ++ t → k ≤ p.length := by
  induction s generalizing k with
  | nil =>
    unfold Index at h
    split at h
    · rename_i hs
      simp only [Option.some.injEq] at h
      subst hs; subst h
      simp
    · simp at h
  | cons c s ih =>
    unfold Index at h
    split at h
    · rename_i hp
      simp only [Option.some.injEq] at h
      subst h
      rw [HasPrefix_iff] at hp
      obtain ⟨t, ht⟩ := hp
      refine ⟨?_, ?_, fun _ _ _ => Nat.zero_le _⟩
      · have : List.drop substr.length (c :: s) = t := by
          rw [← ht]; simp
        simp [this, ht]
      · have := congrArg List.length ht
        simp at this
        simp; omega
    · rename_i hp
      cases hk : Index s substr with
      | none => simp [hk] at h
      | some k0 =>
        simp only [hk, Option.map_some', Option.some.injEq] at h
        subst h
        obtain ⟨h1, h2, h3⟩ := ih k0 hk
        refine ⟨?_, ?_, ?_⟩
        · have : k0 + 1 + substr.length = (k0 + substr.length) + 1 := by omega
          rw [this]
          simp only [List.take_succ_cons, List.drop_succ_cons, List.cons_append, List.cons.injEq,
            true_and]
          exact h1
        · simp; omega
        · intro p t hpt
          cases p with
          | nil =>
            exfalso; apply hp
            rw [HasPrefix_iff]
            exact ⟨t, by simpa using hpt.symm⟩
          | cons a p =>
            simp only [List.cons_append, List.cons.injEq] at hpt
            have := h3 p t hpt.2
            simp; omega

theorem Index_isSome_of_infix (s substr : GoString) (h : substr <:+: s) :
    ∃ k, Index s substr = some k := by
  cases hk : Index s substr with
  | none => exact absurd h (Index_eq_none s substr hk)
  | some k => exact ⟨k, rfl⟩

theorem Count_eq_zero_iff (s substr : GoString) (h : substr ≠ []) :
    Count s substr h = 0 ↔ Index s substr = none := by
  have grow : ∀ fuel t n, n ≤ CountLoop substr fuel t n := by
    intro fuel
    induction fuel with
    | zero => intro t n; simp [CountLoop]
    | succ f ih =>
      intro t n
      simp only [CountLoop]
      split
      · exact Nat.le_refl _
      · exact Nat.le_of_succ_le (ih _ _)
  simp only [Count, CountLoop]
  cases hk : Index s substr with
  | none => simp
  | some k =>
    simp only [reduceCtorEq, iff_false]
    have := grow s.length (List.drop (k + substr.length) s) (0 + 1)
    omega

/-- The fuel of `Count` is never used up: more fuel gives the same count. -/
theorem CountLoop_fuel (substr : GoString) (h : substr ≠ []) (fuel : Nat) :
    ∀ (s : GoString) (n : Nat), s.length < fuel →
      CountLoop substr fuel s n = CountLoop substr (s.length + 1) s n := by
  induction fuel using Nat.strong_induction_on with
  | _ fuel ih =>
    intro s n hlt
    obtain ⟨f, rfl⟩ : ∃ f, fuel = f + 1 := ⟨fuel - 1, by omega⟩
    simp only [CountLoop]
    cases hk : Index s substr with
    | none => rfl
    | some k =>
      simp only
      obtain ⟨_, hlen, _⟩ := Index_eq_some s substr k hk
      have hpos : 0 < substr.length := List.length_pos.mpr h
      have hshort : (s.drop (k + substr.length)).length < s.length := by
        rw [List.length_drop]; omega
      rw [ih f (Nat.lt_succ_self f) _ _ (by omega)]
      by_cases hs : s.length = f
      · rw [hs]
        rw [ih f (Nat.lt_succ_self f) _ _ (by omega)]
      · rw [ih s.length (by omega) _ _ hshort]

/-- With `n = 1`: nothing changes when `old` does not occur. -/
theorem Replace_one_of_none (s old new : GoString) (h : old ≠ [])
    (hk : Index s old = none) : Replace s old new 1 h = some s := by
  simp [Replace, (Count_eq_zero_iff s old h).mpr hk]

/-- With `n = 1`: the first instance of `old`, at offset `k`, is replaced. -/
theorem Replace_one_of_some (s old new : GoString) (h : old ≠ []) (hne : old ≠ new)
    (k : Nat) (hk : Index s old = some k) :
    Replace s old new 1 h = some (s.take k ++ new ++ s.drop (k + old.length)) := by
  have hm : Count s old h ≠ 0 := by
    rw [Ne, Count_eq_zero_iff]; simp [hk]
  obtain ⟨_, hlen, _⟩ := Index_eq_some s old k hk
  have hk' : k ≤ s.length := by omega
  have h1 : ¬ ((Count s old h : Int) < 1) := by
    have : 0 < Count s old h := Nat.pos_of_ne_zero hm
    omega
  simp [Replace, hne, hm, h1, ReplaceLoop, sliceFrom, slice, hk, hk', hlen]

theorem closeTag_ne_new : closeTag ≠ jsCode ++ closeTag := by
  intro h
  have := congrArg List.length h
  have hj : jsCode ≠ [] := by decide
  have : jsCode.length = 0 := by
    simp only [List.length_append] at this
    omega
  exact hj (List.length_eq_zero.mp this)

theorem decimalValue_Sprint (n : Nat) : decimalValue (Sprint n) = n := by
  induction n using Nat.strong_induction_on with
  | _ n ih =>
    unfold Sprint
    split
    · simp [decimalValue]
    · rename_i hn
      have := ih (n / 10) (by omega)
      simp only [decimalValue, List.foldl_append, List.foldl_cons, List.foldl_nil] at this ⊢
      rw [this]
      omega

/-! ## The response rewriter -/

/-- The rewriter on a body read without error, in terms of `Index`. -/
theorem ModifyResponse_of_read (res : Response) (hread : res.Body.err = none) :
    ModifyResponse res = Outcome.ok { res with
      Body := NopCloserOfString
        (match Index res.Body.data closeTag with
          | none => res.Body.data
          | some k => res.Body.data.take k ++ (jsCode ++ closeTag) ++
              res.Body.data.drop (k + closeTag.length))
      ContentLength :=
        ((match Index res.Body.data closeTag with
          | none => res.Body.data
          | some k => res.Body.data.take k ++ (jsCode ++ closeTag) ++
              res.Body.data.drop (k + closeTag.length)).length : Int)
      Header := res.Header.Set (str "Content-Length")
        (Sprint (match Index res.Body.data closeTag with
          | none => res.Body.data
          | some k => res.Body.data.take k ++ (jsCode ++ closeTag) ++
              res.Body.data.drop (k + closeTag.length)).length) } := by
  unfold ModifyResponse
  rw [hread]
  cases hk : Index res.Body.data closeTag with
  | none =>
    simp only [Replace_one_of_none _ _ _ _ hk]
  | some k =>
    simp only [Replace_one_of_some _ _ _ _ closeTag_ne_new k hk]

/-- A response whose body cannot be read is handed back as an error, and only
such a response is: the rewriter never panics. -/
theorem ModifyResponse_ok_iff (res : Response) :
    (∃ res', ModifyResponse res = Outcome.ok res') ↔ res.Body.err = none := by
  constructor
  · rintro ⟨res', h⟩
    cases he : res.Body.err with
    | none => rfl
    | some e => simp [ModifyResponse, he] at h
  · intro h
    exact ⟨_, ModifyResponse_of_read res h⟩

/-- C1: when the body contains `</body>`, the rewritten body is
`p ++ jsCode ++ "</body>" ++ s` where `p` is the part before the first
occurrence of the tag and `s` the part after it; it is `len(jsCode)` bytes
longer than the original. -/
theorem ModifyResponse_injects_before_first_closeTag (res : Response)
    (hread : res.Body.err = none) (htag : closeTag <:+: res.Body.data) :
    ∃ p s, res.Body.data = p ++ closeTag ++ s ∧
      (∀ p' s', res.Body.data = p' ++ closeTag ++ s' → p.length ≤ p'.length) ∧
      ∃ res', ModifyResponse res = Outcome.ok res' ∧
        res'.Body = NopCloserOfString (p ++ jsCode ++ closeTag ++ s) ∧
        res'.Body.data.length = res.Body.data.length + jsCode.length := by
  obtain ⟨k, hk⟩ := Index_isSome_of_infix _ _ htag
  obtain ⟨hsplit, _, hmin⟩ := Index_eq_some _ _ k hk
  refine ⟨res.Body.data.take k, res.Body.data.drop (k + closeTag.length), hsplit, ?_,
    _, ModifyResponse_of_read res hread, ?_, ?_⟩
  · intro p' s' h
    exact le_trans (List.length_take_le _ _) (hmin p' s' h)
  · simp [hk]
  · have hl := congrArg List.length hsplit
    simp only [List.length_append] at hl
    simp only [hk, NopCloserOfString, List.length_append]
    omega

/-- C2: when the body does not contain `</body>`, the rewriter returns it
unchanged and reports no error. -/
theorem ModifyResponse_without_closeTag (res : Response)
    (hread : res.Body.err = none) (htag : ¬ closeTag <:+: res.Body.data) :
    ∃ res', ModifyResponse res = Outcome.ok res' ∧
      res'.Body = NopCloserOfString res.Body.data := by
  have hk : Index res.Body.data closeTag = none := by
    cases hk : Index res.Body.data closeTag with
    | none => rfl
    | some k =>
      exfalso; apply htag
      obtain ⟨hsplit, _, _⟩ := Index_eq_some _ _ k hk
      exact ⟨_, _, hsplit.symm⟩
  exact ⟨_, ModifyResponse_of_read res hread, by simp [hk]⟩

/-- C3: after a successful rewrite the field `ContentLength` and the header
`Content-Length` (one value, in decimal) both give the byte length of the body
handed back, whatever the header held before. -/
theorem ModifyResponse_content_length (res : Response) (hread : res.Body.err = none) :
    ∃ res', ModifyResponse res = Outcome.ok res' ∧
      res'.Body.err = none ∧
      res'.ContentLength = (res'.Body.data.length : Int) ∧
      res'.Header (str "Content-Length") = some [Sprint res'.Body.data.length] ∧
      ∀ v, res'.Header (str "Content-Length") = some [v] →
        decimalValue v = res'.Body.data.length := by
  refine ⟨_, ModifyResponse_of_read res hread, rfl, rfl, ?_, ?_⟩
  · simp [Header.Set, NopCloserOfString]
  · intro v hv
    simp only [Header.Set, NopCloserOfString, if_true, Option.some.injEq, List.cons.injEq,
      and_true] at hv
    rw [← hv, decimalValue_Sprint]
    rfl

/-! ## The retrying transport -/

theorem MaxRetries_eq : MaxRetries = 600 := by decide

theorem countCalls_failedRounds (k n : Nat) : countCalls (failedRounds k n) = n := by
  induction n generalizing k with
  | zero => rfl
  | succ n ih =>
    have := ih (k + 1)
    simp only [countCalls] at this
    simp [failedRounds, countCalls, this]

theorem sleepsOf_failedRounds (k n : Nat) :
    sleepsOf (failedRounds k n) = List.replicate n 100 := by
  induction n generalizing k with
  | zero => rfl
  | succ n ih =>
    have := ih (k + 1)
    simp only [sleepsOf] at this
    simp [failedRounds, sleepsOf, this, List.replicate_succ]

/-- As long as the underlying transport answers with an error, each round of
the loop is one call followed by one sleep of 100 ms. -/
theorem RoundTripLoop_failed_rounds (rt : retryRoundTripper) (req : Request) (n m : Nat)
    (w : World)
    (hfail : ∀ k, k < n → (rt.underlyingTransport.RoundTrip (w.calls + k) req).2 ≠ none) :
    rt.RoundTripLoop req (n + m) w =
      rt.RoundTripLoop req m ⟨w.calls + n, w.trace ++ failedRounds w.calls n⟩ := by
  induction n generalizing w with
  | zero => simp [failedRounds]
  | succ n ih =>
    have h0 := hfail 0 (Nat.succ_pos n)
    rw [Nat.add_zero] at h0
    obtain ⟨e, he⟩ := Option.ne_none_iff_exists'.mp h0
    have hstep : rt.RoundTripLoop req (n + 1 + m) w =
        rt.RoundTripLoop req (n + m)
          ⟨w.calls + 1, w.trace ++ [Event.call w.calls] ++ [Event.sleep 100]⟩ := by
      rw [show n + 1 + m = (n + m) + 1 by omega]
      simp only [retryRoundTripper.RoundTripLoop, he]
    rw [hstep, ih]
    · simp [failedRounds, Nat.add_assoc, Nat.add_comm 1 n]
    · intro k hk
      have := hfail (k + 1) (Nat.succ_lt_succ hk)
      simpa [Nat.add_assoc, Nat.add_comm 1 k] using this

/-- C4: when the underlying transport fails `N < MaxRetries` times and then
answers with a response, `RoundTrip` returns that response and a nil error
after exactly `N + 1` calls and `N` sleeps of 100 ms, one after each failed
call, whatever the status of the response. -/
theorem RoundTrip_returns_first_response (rt : retryRoundTripper) (req : Request)
    (N : Nat) (resp : Response) (hN : N < MaxRetries)
    (hfail : ∀ k, k < N → (rt.underlyingTransport.RoundTrip k req).2 ≠ none)
    (hok : rt.underlyingTransport.RoundTrip N req = (some resp, none)) :
    rt.RoundTrip req World.start =
        ((some resp, none), ⟨N + 1, failedRounds 0 N ++ [Event.call N]⟩) ∧
      countCalls (failedRounds 0 N ++ [Event.call N]) = N + 1 ∧
      sleepsOf (failedRounds 0 N ++ [Event.call N]) = List.replicate N 100 := by
  refine ⟨?_, ?_, ?_⟩
  · obtain ⟨m, hm⟩ : ∃ m, MaxRetries = N + (m + 1) := ⟨MaxRetries - N - 1, by omega⟩
    unfold retryRoundTripper.RoundTrip
    rw [hm, RoundTripLoop_failed_rounds rt req N (m + 1) World.start
      (by intro k hk; simpa [World.start] using hfail k hk)]
    simp [retryRoundTripper.RoundTripLoop, World.start, hok]
  · have := countCalls_failedRounds 0 N
    simp only [countCalls] at this
    simp [countCalls, this]
  · have := sleepsOf_failedRounds 0 N
    simp only [sleepsOf] at this
    simp [sleepsOf, this]

/-- C5: when the underlying transport fails on every call, `RoundTrip` calls it
exactly `MaxRetries = 600` times and then returns a nil response with the error
"max retries exceeded". -/
theorem RoundTrip_gives_up_after_MaxRetries (rt : retryRoundTripper) (req : Request)
    (hfail : ∀ k, (rt.underlyingTransport.RoundTrip k req).2 ≠ none) :
    rt.RoundTrip req World.start =
        ((none, some ⟨str "max retries exceeded"⟩), ⟨600, failedRounds 0 600⟩) ∧
      MaxRetries = 600 ∧
      countCalls (failedRounds 0 600) = 600 := by
  refine ⟨?_, MaxRetries_eq, countCalls_failedRounds 0 600⟩
  unfold retryRoundTripper.RoundTrip
  rw [MaxRetries_eq, show 600 = 600 + 0 by rfl,
    RoundTripLoop_failed_rounds rt req 600 0 World.start
      (by intro k _; simpa [World.start] using hfail k)]
  simp [retryRoundTripper.RoundTripLoop, World.start]

/-! ## The client registry -/

theorem Hub.clients_getElem? (s : Hub) (i : Nat) (hi : i < s.len) :
    s.arr[i]? = s.clients[i]? := by
  simp [Hub.clients, List.getElem?_take, hi]

theorem Hub.clients_length (s : Hub) (hcap : s.len ≤ s.arr.length) :
    s.clients.length = s.len := by
  simp [Hub.clients, hcap]

/-- The registry after the in-place `append` is the old one without slot `i`. -/
theorem compact_take (arr : List Conn) (i len : Nat) (hi : i < len) (hcap : len ≤ arr.length) :
    (compact arr i len).take (len - 1) = (arr.take len).take i ++ (arr.take len).drop (i + 1) := by
  have h1 : (arr.take i ++ (arr.take len).drop (i + 1)).length = len - 1 := by
    simp only [List.length_append, List.length_take, List.length_drop]
    omega
  have h2 : (arr.take len).take i = arr.take i := by
    rw [List.take_take]
    congr 1
    omega
  rw [h2, compact, ← h1, List.take_left']
  rfl

theorem compact_length (arr : List Conn) (i len : Nat) (hi : i < len) (hcap : len ≤ arr.length) :
    (compact arr i len).length = arr.length := by
  simp only [compact, List.length_append, List.length_take, List.length_drop]
  omega

/-- The scan of `removeClient` from index `i` on, when `ws` is not among the
first `i` registry entries: it returns, and the registry loses the first
occurrence of `ws`. -/
theorem removeClientScan_spec (ws : Conn) (remaining : Nat) :
    ∀ (i : Nat) (s : Hub), i + remaining = s.len → s.len ≤ s.arr.length →
      ws ∉ s.clients.take i →
      ∃ s', removeClientScan ws remaining i s = Run.returned s' ∧
        s'.clients = s.clients.erase ws ∧ s'.clientsMu = s.clientsMu ∧
        s'.closed = s.closed ∧ s'.delivered = s.delivered ∧
        s'.len ≤ s'.arr.length ∧ (ws ∉ s.clients → s' = s) := by
  induction remaining with
  | zero =>
    intro i s hi hcap hnot
    have hlen := s.clients_length hcap
    have hall : s.clients.take i = s.clients := List.take_of_length_le (by omega)
    rw [hall] at hnot
    exact ⟨s, rfl, (List.erase_of_not_mem hnot).symm, rfl, rfl, rfl, hcap, fun _ => rfl⟩
  | succ remaining ih =>
    intro i s hi hcap hnot
    have hlen := s.clients_length hcap
    have hil : i < s.len := by omega
    have hic : i < s.clients.length := by omega
    have hget : s.arr[i]? = some (s.clients[i]) := by
      rw [s.clients_getElem? i hil, List.getElem?_eq_getElem hic]
    have hsplit : s.clients = s.clients.take i ++ s.clients[i] :: s.clients.drop (i + 1) := by
      rw [← List.drop_eq_getElem_cons hic, List.take_append_drop]
    simp only [removeClientScan, hget]
    by_cases hc : s.clients[i] = ws
    · rw [if_pos hc]
      refine ⟨_, rfl, ?_, rfl, rfl, rfl, ?_, ?_⟩
      · have herase : s.clients.erase ws = s.clients.take i ++ s.clients.drop (i + 1) := by
          conv_lhs => rw [hsplit]
          rw [List.erase_append_right _ hnot, hc, List.erase_cons_head]
        rw [herase]
        exact compact_take s.arr i s.len hil hcap
      · simp only [compact_length s.arr i s.len hil hcap]
        omega
      · intro hmem
        exact absurd (hc ▸ List.getElem_mem hic) hmem
    · rw [if_neg hc]
      have hnot' : ws ∉ s.clients.take (i + 1) := by
        rw [List.take_succ, List.getElem?_eq_getElem hic]
        simp only [Option.toList_some, List.mem_append, List.mem_singleton, not_or]
        exact ⟨hnot, fun h => hc h.symm⟩
      exact ih (i + 1) s (by omega) hcap hnot'

/-- `removeClient` called while the mutex is free. -/
theorem removeClient_of_free (ws : Conn) (s : Hub) (hfree : s.clientsMu = false)
    (hcap : s.len ≤ s.arr.length) :
    ∃ s', removeClient ws s = Run.returned s' ∧
      s'.clients = s.clients.erase ws ∧ s'.clientsMu = false ∧
      s'.closed = s.closed ∧ s'.delivered = s.delivered ∧
      s'.len ≤ s'.arr.length ∧ (ws ∉ s.clients → s' = s) := by
  obtain ⟨s2, hrun, hcl, hmu, hclosed, hdel, hcap2, hsame⟩ :=
    removeClientScan_spec ws s.len 0 { s with clientsMu := true } (by simp) hcap (by simp)
  refine ⟨{ s2 with clientsMu := false }, ?_, hcl, rfl, hclosed, hdel, hcap2, ?_⟩
  · simp only [removeClient, Lock, hfree, Run.andThen, Bool.false_eq_true, if_false]
    rw [hrun]
    have : s2.clientsMu = true := hmu
    simp [Unlock, this]
  · intro hmem
    rw [hsame hmem]
    cases s
    simp_all

/-- `removeClient` called while the caller holds the mutex never returns. -/
theorem removeClient_of_held (ws : Conn) (s : Hub) (hheld : s.clientsMu = true) :
    removeClient ws s = Run.blocked s := by
  simp [removeClient, Lock, hheld, Run.andThen]

/-- C8, as the code has it: called while `clientsMu` is not held, on a registry
of distinct handles, `removeClient(h)` returns with the registry holding every
handle other than `h` in the old order and not holding `h`; when `h` was absent
nothing changes, and a second `removeClient(h)` changes nothing. -/
theorem removeClient_removes_and_is_idempotent (h : Conn) (s : Hub)
    (hfree : s.clientsMu = false) (hcap : s.len ≤ s.arr.length) (hnd : s.clients.Nodup) :
    ∃ s', removeClient h s = Run.returned s' ∧
      h ∉ s'.clients ∧
      s'.clients = s.clients.filter (fun c => c ≠ h) ∧
      (h ∉ s.clients → s' = s) ∧
      removeClient h s' = Run.returned s' := by
  obtain ⟨s', hrun, hcl, hmu, _, _, hcap', hsame⟩ := removeClient_of_free h s hfree hcap
  have hnot : h ∉ s'.clients := by
    rw [hcl]
    exact fun hm => (List.Nodup.mem_erase_iff hnd).mp hm |>.1 rfl
  refine ⟨s', hrun, hnot, ?_, hsame, ?_⟩
  · rw [hcl, List.Nodup.erase_eq_filter hnd]
    congr 1
    funext c
    by_cases hch : c = h <;> simp [hch]
  · obtain ⟨s'', hrun', _, _, _, _, _, hsame'⟩ := removeClient_of_free h s' hmu hcap'
    rw [hrun', hsame' hnot]

/-- C8 fails as stated: on the registry `[7]` with `clientsMu` held by the
caller, the state in which `broadcastMessage` calls it after a failed write to
7, `removeClient(7)` waits for ever in `Lock` and 7 stays in the registry. -/
theorem removeClient_blocks_when_mutex_held :
    removeClient 7 ⟨[7], 1, true, [7], []⟩ = Run.blocked ⟨[7], 1, true, [7], []⟩ ∧
      Hub.clients ⟨[7], 1, true, [7], []⟩ = [7] := by
  decide

theorem drop_eq_cons_getElem (l : List Conn) (i : Nat) (a : Conn) (rest : List Conn)
    (h : l.drop i = a :: rest) :
    ∃ hi : i < l.length, l[i] = a ∧ l.drop (i + 1) = rest := by
  have hi : i < l.length := by
    by_contra hge
    rw [List.drop_eq_nil_of_le (by omega)] at h
    exact List.noConfusion h
  rw [List.drop_eq_getElem_cons hi] at h
  simp only [List.cons.injEq] at h
  exact ⟨hi, h.1, h.2⟩

/-- The loop of `broadcastMessage` from index `i` on, when no remaining write
fails: it returns, every remaining registry entry has received the message in
registry order, and nothing else has changed. -/
theorem broadcastLoop_of_all_ok (fails : Conn → Bool) (message : GoString)
    (remaining : Nat) :
    ∀ (i : Nat) (s : Hub), i + remaining = s.len → s.len ≤ s.arr.length →
      (∀ c ∈ s.clients.drop i, writeFails fails s c = false) →
      broadcastLoop fails message remaining i s =
        Run.returned { s with
          delivered := s.delivered ++ (s.clients.drop i).map fun c => (c, message) } := by
  induction remaining with
  | zero =>
    intro i s hi hcap _
    have hlen := s.clients_length hcap
    have : s.clients.drop i = [] := List.drop_eq_nil_of_le (by omega)
    simp [broadcastLoop, this]
  | succ remaining ih =>
    intro i s hi hcap hok
    have hlen := s.clients_length hcap
    have hil : i < s.len := by omega
    have hic : i < s.clients.length := by omega
    have hget : s.arr[i]? = some (s.clients[i]) := by
      rw [s.clients_getElem? i hil, List.getElem?_eq_getElem hic]
    have hdrop : s.clients.drop i = s.clients[i] :: s.clients.drop (i + 1) :=
      List.drop_eq_getElem_cons hic
    have hw : writeFails fails s s.clients[i] = false :=
      hok _ (by rw [hdrop]; exact List.mem_cons_self _ _)
    simp only [broadcastLoop, hget, hw, Bool.false_eq_true, if_false]
    have hnext := ih (i + 1) { s with delivered := s.delivered ++ [(s.clients[i], message)] }
      (by simpa using (by omega : i + 1 + remaining = s.len)) hcap
      (fun c hc => hok c (by rw [hdrop]; exact List.mem_cons_of_mem _ hc))
    rw [hnext]
    have hcl : Hub.clients { s with delivered := s.delivered ++ [(s.clients[i], message)] } =
        s.clients := rfl
    rw [hcl, hdrop]
    simp only [List.map_cons, List.append_assoc, List.singleton_append]

/-- The loop of `broadcastMessage` run with the mutex held, as `broadcastMessage`
runs it: at the first write that fails it closes that connection, calls
`removeClient`, and waits for ever in `Lock`.  The entries before it have
received the message; the entries after it have not been tried; the registry is
as it was. -/
theorem broadcastLoop_blocks_at_first_failure (fails : Conn → Bool) (message : GoString)
    (pre : List Conn) :
    ∀ (remaining i : Nat) (s : Hub) (c : Conn) (post : List Conn),
      i + remaining = s.len → s.len ≤ s.arr.length → s.clientsMu = true →
      s.clients.drop i = pre ++ c :: post →
      (∀ x ∈ pre, writeFails fails s x = false) → writeFails fails s c = true →
      broadcastLoop fails message remaining i s =
        Run.blocked { s with
          closed := s.closed ++ [c]
          delivered := s.delivered ++ pre.map fun x => (x, message) } := by
  induction pre with
  | nil =>
    intro remaining i s c post hi hcap hheld hdrop _ hc
    have hlen := s.clients_length hcap
    obtain ⟨hic, hci, _⟩ := drop_eq_cons_getElem _ _ _ _ hdrop
    have hil : i < s.len := by omega
    have hget : s.arr[i]? = some c := by
      rw [s.clients_getElem? i hil, List.getElem?_eq_getElem hic, hci]
    obtain ⟨r, rfl⟩ : ∃ r, remaining = r + 1 := ⟨remaining - 1, by omega⟩
    simp only [broadcastLoop, hget, hc, if_true]
    rw [removeClient_of_held _ _ (by exact hheld)]
    simp [Run.andThen]
  | cons a pre ih =>
    intro remaining i s c post hi hcap hheld hdrop hpre hc
    have hlen := s.clients_length hcap
    obtain ⟨hic, hai, hrest⟩ := drop_eq_cons_getElem _ _ _ _ hdrop
    have hil : i < s.len := by omega
    have hget : s.arr[i]? = some a := by
      rw [s.clients_getElem? i hil, List.getElem?_eq_getElem hic, hai]
    obtain ⟨r, rfl⟩ : ∃ r, remaining = r + 1 := ⟨remaining - 1, by omega⟩
    have hw : writeFails fails s a = false := hpre a (List.mem_cons_self _ _)
    simp only [broadcastLoop, hget, hw, Bool.false_eq_true, if_false]
    rw [ih r (i + 1) { s with delivered := s.delivered ++ [(a, message)] } c post
      (by simpa using (by omega : i + 1 + r = s.len)) hcap hheld hrest
      (fun x hx => hpre x (List.mem_cons_of_mem _ hx)) hc]
    simp

/-- When no write fails, `broadcastMessage` returns with the mutex released,
the registry unchanged, and the message delivered once to every registered
connection in registry order. -/
theorem broadcastMessage_of_all_ok (fails : Conn → Bool) (message : GoString) (s : Hub)
    (hfree : s.clientsMu = false) (hcap : s.len ≤ s.arr.length)
    (hok : ∀ c ∈ s.clients, writeFails fails s c = false) :
    broadcastMessage fails message s =
      Run.returned { s with
        delivered := s.delivered ++ s.clients.map fun c => (c, message) } := by
  have hloop := broadcastLoop_of_all_ok fails message s.len 0 { s with clientsMu := true }
    (by simp) hcap (by simpa using hok)
  simp only [broadcastMessage, Lock, hfree, Bool.false_eq_true, if_false, Run.andThen]
  rw [hloop]
  simp [Unlock, Hub.clients]

/-- When some write fails, `broadcastMessage` never returns: at the first
failing connection `c` it waits for ever in the `Lock` of `removeClient`, with
the mutex held, `c` still registered and the connections after `c` not
written to. -/
theorem broadcastMessage_blocks_at_first_failure (fails : Conn → Bool) (message : GoString)
    (s : Hub) (pre post : List Conn) (c : Conn)
    (hfree : s.clientsMu = false) (hcap : s.len ≤ s.arr.length)
    (hsplit : s.clients = pre ++ c :: post)
    (hpre : ∀ x ∈ pre, writeFails fails s x = false) (hc : writeFails fails s c = true) :
    broadcastMessage fails message s =
      Run.blocked { s with
        clientsMu := true
        closed := s.closed ++ [c]
        delivered := s.delivered ++ pre.map fun x => (x, message) } := by
  have hloop := broadcastLoop_blocks_at_first_failure fails message pre s.len 0
    { s with clientsMu := true } c post (by simp) hcap rfl (by simpa using hsplit) hpre hc
  simp only [broadcastMessage, Lock, hfree, Bool.false_eq_true, if_false, Run.andThen]
  rw [hloop]

/-- The loop of `broadcastMessage` entered with the mutex free, so that
`removeClient` can run to its end: after the failing connection 2 is removed
the array reads `[1, 3, 4, 4]`, the loop goes on at index 2, and connection 3
is passed over while connection 4 is written to twice. -/
theorem broadcastLoop_passes_over_entry_after_removal :
    broadcastLoop (fun c => c == 2) (str "refresh") 4 0 (Hub.ofList [1, 2, 3, 4]) =
      Run.returned ⟨[1, 3, 4, 4], 3, false, [2],
        [(1, str "refresh"), (4, str "refresh"), (4, str "refresh")]⟩ := by
  decide

/-- C6 at registry `[1, 2, 3]` with the write to 2 failing: the broadcast
never returns, only connection 1 has received the message, and connection 3,
whose write would succeed, has not. -/
theorem broadcastMessage_failure_stops_delivery :
    broadcastMessage (fun c => c == 2) (str "refresh") (Hub.ofList [1, 2, 3]) =
        Run.blocked ⟨[1, 2, 3], 3, true, [2], [(1, str "refresh")]⟩ ∧
      receivers ⟨[1, 2, 3], 3, true, [2], [(1, str "refresh")]⟩ (str "refresh") = [1] := by
  decide

/-- C7 at registry `[1, 2]` with the write to 1 failing: the broadcast never
returns and connection 1 stays in the registry; a later broadcast finds the
mutex held and reaches no connection at all. -/
theorem broadcastMessage_failure_keeps_handle_registered :
    broadcastMessage (fun c => c == 1) (str "refresh") (Hub.ofList [1, 2]) =
        Run.blocked ⟨[1, 2], 2, true, [1], []⟩ ∧
      Hub.clients ⟨[1, 2], 2, true, [1], []⟩ = [1, 2] ∧
      broadcastMessage (fun c => c == 1) (str "refresh") ⟨[1, 2], 2, true, [1], []⟩ =
        Run.blocked ⟨[1, 2], 2, true, [1], []⟩ := by
  decide

/-- C10 at registry `[7]` with the write to 7 failing: `broadcastMessage`
calls `removeClient` with `clientsMu` held, the `Lock` in it waits for ever,
and the mutex is never released. -/
theorem broadcastMessage_locks_held_mutex :
    broadcastMessage (fun _ => true) (str "refresh") (Hub.ofList [7]) =
        Run.blocked ⟨[7], 1, true, [7], []⟩ ∧
      Lock ⟨[7], 1, true, [7], []⟩ = Run.blocked ⟨[7], 1, true, [7], []⟩ := by
  decide

/-! ## Start-up -/

/-- C9, as the code has it: without `-help`, the targets `localhost:P` and
`http://localhost:P` make `main` exit with status 1 before any server is
started, for every proxy port `P`. -/
theorem main_rejects_localhost_on_proxy_port (P T : GoString) :
    main ⟨str "localhost:" ++ P, P, T, false⟩ = Startup.exit 1 ∧
      main ⟨str "http://localhost:" ++ P, P, T, false⟩ = Startup.exit 1 := by
  constructor
  · have h1 : HasPrefix (str "localhost:" ++ P) (str "http://") = false := rfl
    have h2 : HasPrefix (str "localhost:" ++ P) (str "https://") = false := rfl
    have h3 : str "localhost:" ++ P ≠ [] := by simp [str]
    have h4 : str "http://" ++ (str "localhost:" ++ P) = str "http://localhost:" ++ P := rfl
    simp [main, h1, h2, h3, h4]
  · have h1 : HasPrefix (str "http://localhost:" ++ P) (str "http://") = true := rfl
    have h3 : str "http://localhost:" ++ P ≠ [] := by simp [str]
    simp [main, h1, h3]

/-- C9 fails as stated: on proxy port 8481 the targets `http://127.0.0.1:8481`
and `http://localhost:8481/` get both servers started, and with `-help` the
target `localhost:8481` ends in exit status 0. -/
theorem main_starts_servers_for_other_spellings :
    main ⟨str "http://127.0.0.1:8481", str "8481", str "8482", false⟩ =
        Startup.serving (str "http://127.0.0.1:8481") (str "8481") (str "8482") ∧
      main ⟨str "http://localhost:8481/", str "8481", str "8482", false⟩ =
        Startup.serving (str "http://localhost:8481/") (str "8481") (str "8482") ∧
      main ⟨str "localhost:8481", str "8481", str "8482", true⟩ = Startup.exit 0 := by
  decide

/-! ## Instances at concrete inputs -/

/-- The rewrite of `<body>Hi</body></body>`, a body with two closing tags. -/
theorem ModifyResponse_injects_before_first_closeTag_witness :
    closeTag <:+: (pageResponse (str "<body>Hi</body></body>")).Body.data ∧
    ∃ p s, (pageResponse (str "<body>Hi</body></body>")).Body.data = p ++ closeTag ++ s ∧
      (∀ p' s', (pageResponse (str "<body>Hi</body></body>")).Body.data = p' ++ closeTag ++ s' →
        p.length ≤ p'.length) ∧
      ∃ res', ModifyResponse (pageResponse (str "<body>Hi</body></body>")) = Outcome.ok res' ∧
        res'.Body = NopCloserOfString (p ++ jsCode ++ closeTag ++ s) ∧
        res'.Body.data.length =
          (pageResponse (str "<body>Hi</body></body>")).Body.data.length + jsCode.length :=
  ⟨⟨str "<body>Hi", str "</body>", by decide⟩,
    ModifyResponse_injects_before_first_closeTag (pageResponse (str "<body>Hi</body></body>")) rfl
      ⟨str "<body>Hi", str "</body>", by decide⟩⟩

/-- The rewrite of `plain text`, a body without a closing tag. -/
theorem ModifyResponse_without_closeTag_witness :
    ∃ res', ModifyResponse (pageResponse (str "plain text")) = Outcome.ok res' ∧
      res'.Body = NopCloserOfString (pageResponse (str "plain text")).Body.data :=
  ModifyResponse_without_closeTag (pageResponse (str "plain text")) rfl
    (Index_eq_none _ _ (by decide))

/-- The lengths reported for `<body>Hi</body>`, whose old header said 15. -/
theorem ModifyResponse_content_length_witness :
    ∃ res', ModifyResponse (pageResponse (str "<body>Hi</body>")) = Outcome.ok res' ∧
      res'.Body.err = none ∧
      res'.ContentLength = (res'.Body.data.length : Int) ∧
      res'.Header (str "Content-Length") = some [Sprint res'.Body.data.length] ∧
      ∀ v, res'.Header (str "Content-Length") = some [v] →
        decimalValue v = res'.Body.data.length :=
  ModifyResponse_content_length (pageResponse (str "<body>Hi</body>")) rfl

/-- Two refused connections, then a 503: three calls, two sleeps, the 503 returned. -/
theorem RoundTrip_returns_first_response_witness :
    2 < MaxRetries ∧
    (retryRoundTripper.mk restartingTransport).RoundTrip getRoot World.start =
        ((some unavailableResponse, none), ⟨2 + 1, failedRounds 0 2 ++ [Event.call 2]⟩) ∧
      countCalls (failedRounds 0 2 ++ [Event.call 2]) = 2 + 1 ∧
      sleepsOf (failedRounds 0 2 ++ [Event.call 2]) = List.replicate 2 100 :=
  ⟨by decide,
    RoundTrip_returns_first_response ⟨restartingTransport⟩ getRoot 2 unavailableResponse
      (by decide)
      (by intro k hk; simp [restartingTransport, hk])
      (by simp [restartingTransport])⟩

/-- An origin that never answers: 600 calls, then the error. -/
theorem RoundTrip_gives_up_after_MaxRetries_witness :
    (retryRoundTripper.mk deadTransport).RoundTrip getRoot World.start =
        ((none, some ⟨str "max retries exceeded"⟩), ⟨600, failedRounds 0 600⟩) ∧
      MaxRetries = 600 ∧
      countCalls (failedRounds 0 600) = 600 :=
  RoundTrip_gives_up_after_MaxRetries ⟨deadTransport⟩ getRoot
    (by intro k; simp [deadTransport])

/-- Removing connection 2 from the registry `[1, 2, 3]`. -/
theorem removeClient_removes_and_is_idempotent_witness :
    (Hub.ofList [1, 2, 3]).clientsMu = false ∧
    (Hub.ofList [1, 2, 3]).len ≤ (Hub.ofList [1, 2, 3]).arr.length ∧
    (Hub.ofList [1, 2, 3]).clients.Nodup ∧
    ∃ s', removeClient 2 (Hub.ofList [1, 2, 3]) = Run.returned s' ∧
      2 ∉ s'.clients ∧
      s'.clients = (Hub.ofList [1, 2, 3]).clients.filter (fun c => c ≠ 2) ∧
      (2 ∉ (Hub.ofList [1, 2, 3]).clients → s' = Hub.ofList [1, 2, 3]) ∧
      removeClient 2 s' = Run.returned s' :=
  ⟨rfl, by decide, by decide,
    removeClient_removes_and_is_idempotent 2 (Hub.ofList [1, 2, 3]) rfl (by decide) (by decide)⟩

end DevHtmlProxy
